import Mathlib

/-!
Shallow embedding of the sweep/averager core of `Hatlab_RFSOC`
(`Hatlab_RFSOC/core/averager_program.py`): register allocation
(`APAveragerProgram.new_reg`), generator declaration
(`APAveragerProgram.declare_all_gens`), sweep construction
(`QickSweep.__init__`), the N-dimensional sweep compiler
(`NDAveragerProgram.make_program`), and the acquisition/reduction
pipeline (`acquire_round` / `acquire`).

Numeric values are modelled over `ℚ` (exact arithmetic standing in for the
Python/numpy numbers); the rotation in single-shot classification uses `ℝ`
because it involves `cos`/`sin`.  Python exceptions are modelled with
`Except PyError`.
-/

namespace AveragerProgram

/-- Python exceptions raised by the embedded code paths. -/
inductive PyError where
  | zeroDivision
  | valueError
  | keyError (key : String)
  | overflowError
  | indexError
  deriving DecidableEq, Repr

/-! ## QickSweep (`QickSweep.__init__`, averager_program.py lines 92-109) -/

/-- Python `/` on numbers: raises `ZeroDivisionError` on a zero denominator. -/
def pyDiv (a b : ℚ) : Except PyError ℚ :=
  if b = 0 then .error .zeroDivision else .ok (a / b)

/-- `np.linspace(start, stop, n)`: `n` evenly spaced points from `start` to
`stop` inclusive (for `n = 1` the single point is `start`). -/
def linspace (start stop : ℚ) (n : Nat) : List ℚ :=
  if n ≤ 1 then (List.range n).map (fun _ => start)
  else (List.range n).map (fun i => start + (stop - start) * i / ((n : ℚ) - 1))

/-- The data computed by `QickSweep.__init__` (the fields that do not merely
alias the constructor arguments). -/
structure QickSweep where
  start : ℚ
  stop : ℚ
  expts : Nat
  reg_step : Int
  sweep_array : List ℚ
  deriving DecidableEq, Repr

/-- `QickSweep.__init__`: computes `step_val = (stop - start) / (expts - 1)`
unguarded, converts it with the register's `val2reg`, and builds
`sweep_array = np.linspace(start, stop, expts)`.  The division error
propagates as a Python exception. -/
def QickSweep.mkSweep (val2reg : ℚ → Int) (start stop : ℚ) (expts : Nat) :
    Except PyError QickSweep :=
  match pyDiv (stop - start) ((expts : ℚ) - 1) with
  | .error e => .error e
  | .ok step_val =>
      .ok { start := start, stop := stop, expts := expts,
            reg_step := val2reg step_val,
            sweep_array := linspace start stop expts }

/-! ## Register allocation (`APAveragerProgram.new_reg`, lines 204-233) -/

/-- The register-allocation-relevant state of an `APAveragerProgram`:
`_user_regs` is the global list of allocated `(page, addr)` pairs, and
`channel_reg_names` models `user_reg_dict[gen_ch].keys()` for the channel
being allocated into. -/
structure APRegState where
  user_regs : List (Nat × Nat)
  channel_reg_names : List String
  deriving DecidableEq, Repr

/-- Largest address occurring in the allocated list (used only as a
termination measure for the linear scan). -/
def maxSnd (regs : List (Nat × Nat)) : Nat :=
  regs.foldr (fun p acc => max p.2 acc) 0

theorem snd_le_maxSnd {regs : List (Nat × Nat)} {p : Nat × Nat}
    (h : p ∈ regs) : p.2 ≤ maxSnd regs := by
  induction regs with
  | nil => simp at h
  | cons hd tl ih =>
      rcases List.mem_cons.mp h with h' | h'
      · subst h'; simp [maxSnd]
      · have := ih h'
        simp only [maxSnd, List.foldr_cons] at *
        omega

/-- The linear scan of `new_reg`:
`addr = 1; while (page, addr) in self._user_regs: addr += 1`. -/
def nextFreeAddr (regs : List (Nat × Nat)) (page : Nat) (addr : Nat) : Nat :=
  if h : (page, addr) ∈ regs then nextFreeAddr regs page (addr + 1) else addr
termination_by maxSnd regs + 1 - addr
decreasing_by
  have hle : addr ≤ maxSnd regs := snd_le_maxSnd h
  omega

/-- `APAveragerProgram.new_reg` for a channel whose page is `page`:
scan for the lowest free address starting at 1, raise `ValueError` when the
scan passes address 12, record the `(page, addr)` pair, then raise
`KeyError` when the (caller-supplied or generated) name already exists for
the channel.  Returns the new state together with the chosen address. -/
def new_reg (st : APRegState) (page : Nat) (name : Option String) :
    Except PyError (APRegState × Nat) :=
  let addr := nextFreeAddr st.user_regs page 1
  if addr > 12 then .error .valueError
  else
    let regs := st.user_regs ++ [(page, addr)]
    let nm := name.getD ("reg_" ++ toString addr)
    if nm ∈ st.channel_reg_names then .error (.keyError nm)
    else .ok ({ user_regs := regs,
                channel_reg_names := st.channel_reg_names ++ [nm] }, addr)

/-! ## Generator declaration (`APAveragerProgram.declare_all_gens`,
lines 158-177) -/

/-- A Python `dict` of keyword arguments for `declare_gen`, as an ordered
association list (keys unique). -/
abbrev Kwargs := List (String × Int)

def lookupKw (kws : Kwargs) (k : String) : Option Int :=
  (kws.find? (fun p => p.1 == k)).map (·.2)

def eraseKw (kws : Kwargs) (k : String) : Kwargs :=
  kws.eraseP (fun p => p.1 == k)

/-- Python `dict.pop(k)`: returns the value and the dict without the key;
raises `KeyError` when the key is absent.  In `declare_all_gens` the
surrounding `try` catches only `AttributeError`, so this `KeyError`
escapes. -/
def popKw (kws : Kwargs) (k : String) : Except PyError (Int × Kwargs) :=
  match lookupKw kws k with
  | none => .error (.keyError k)
  | some v => .ok (v, eraseKw kws k)

/-- One call of `QickProgram.declare_gen` (external collaborator): the
positional channel argument, when the IQ-pair branch supplies one, and the
remaining keyword arguments. -/
structure GenDecl where
  ch : Option Int
  kwargs : Kwargs
  deriving DecidableEq, Repr

/-- The body of the `declare_all_gens` loop for one `cfg["gen_chs"]` entry:
when both `"ch_I"` and `"ch_Q"` are present, pop them, pop `"skew_phase"`
and `"IQ_scale"` (`dict.pop` raises `KeyError` when absent and only
`AttributeError` is caught, so the error propagates), and declare the two
sub-channels with the remaining kwargs; otherwise declare once with the
entry's kwargs. -/
def declareGensForEntry (kws : Kwargs) : Except PyError (List GenDecl) :=
  if (lookupKw kws "ch_I").isSome ∧ (lookupKw kws "ch_Q").isSome then
    match popKw kws "ch_I" with
    | .error e => .error e
    | .ok (chI, kws1) =>
      match popKw kws1 "ch_Q" with
      | .error e => .error e
      | .ok (chQ, kws2) =>
        match popKw kws2 "skew_phase" with
        | .error e => .error e
        | .ok (_, kws3) =>
          match popKw kws3 "IQ_scale" with
          | .error e => .error e
          | .ok (_, kws4) =>
              .ok [{ ch := some chI, kwargs := kws4 },
                   { ch := some chQ, kwargs := kws4 }]
  else
    .ok [{ ch := none, kwargs := kws }]

/-- `declare_all_gens`: fold `declareGensForEntry` over the config entries,
collecting the emitted declarations; the first exception aborts the loop. -/
def declare_all_gens (entries : List Kwargs) : Except PyError (List GenDecl) :=
  match entries with
  | [] => .ok []
  | kws :: rest =>
      match declareGensForEntry kws with
      | .error e => .error e
      | .ok ds =>
          match declare_all_gens rest with
          | .error e => .error e
          | .ok ds' => .ok (ds ++ ds')

/-! ## N-D sweep compiler (`NDAveragerProgram`, lines 518-608) -/

/-- tProc instructions emitted by `make_program` (plus `safe_regwi`, which
`QickRegister.reset` uses to write a register's initial value). -/
inductive Instr where
  | safe_regwi (page addr : Nat) (val : Int)
  | regwi (page addr : Nat) (val : Int)
  | mathi (page dst src : Nat) (op : String) (val : Int)
  | memwi (page src addr : Nat)
  | label (name : String)
  | loopnz (page reg : Nat) (target : String)
  | endProg
  deriving DecidableEq, Repr

/-- The data of one registered `QickSweep` that `make_program` consumes:
its register's page, address and optional name, the register value written
by `reset` (`val2reg(init_val)`), the per-step register increment, and the
point count. -/
structure SweepInstrSpec where
  page : Nat
  addr : Nat
  regName : Option String
  resetVal : Int
  reg_step : Int
  expts : Nat
  deriving DecidableEq, Repr

/-- Loop label for a sweep:
`f"LOOP_{swp.reg.name if swp.reg.name is not None else creg}"`. -/
def SweepInstrSpec.labelName (s : SweepInstrSpec) (creg : Nat) : String :=
  match s.regName with
  | some n => "LOOP_" ++ n
  | none => "LOOP_" ++ toString creg

/-- Instructions emitted per sweep in the reversed setup loop:
`swp.reset(); p.regwi(0, creg, swp.expts - 1); p.label(...)`. -/
def setupBlock (p : Nat × SweepInstrSpec) : List Instr :=
  [.safe_regwi p.2.page p.2.addr p.2.resetVal,
   .regwi 0 p.1 ((p.2.expts : Int) - 1),
   .label (p.2.labelName p.1)]

/-- Instructions emitted per sweep in the forward update loop:
`swp.update(); p.loopnz(0, creg, ...)`. -/
def updateBlock (p : Nat × SweepInstrSpec) : List Instr :=
  [.mathi p.2.page p.2.addr p.2.addr "+" p.2.reg_step,
   .loopnz 0 p.1 (p.2.labelName p.1)]

/-- `counter_regs = (np.arange(n_sweeps) + 15).tolist()`. -/
def counterRegs (nSweeps : Nat) : List Nat :=
  (List.range nSweeps).map (· + 15)

/-- `NDAveragerProgram.make_program`: after running the user's
`initialize` (emitting `initInstrs`), allocate the loop-counter registers
(`counter_regs[-1]` on an empty list raises `IndexError`; a last register
above 21 raises `OverflowError`), then emit: total-run-counter reset,
repetition-counter set and label, the per-sweep setup blocks in reverse
registration order, the user `body`, the run-counter increment and
store, the per-sweep update blocks in registration order, the repetition
branch, and `end`. -/
def makeProgram (reps : Nat) (initInstrs bodyInstrs : List Instr)
    (sweeps : List SweepInstrSpec) : Except PyError (List Instr) :=
  let cregs := counterRegs sweeps.length
  match cregs.getLast? with
  | none => .error .indexError
  | some lastReg =>
    if lastReg > 21 then .error .overflowError
    else
      .ok (initInstrs
        ++ [.regwi 0 13 0, .regwi 0 14 ((reps : Int) - 1), .label "LOOP_rep"]
        ++ ((cregs.reverse.zip sweeps.reverse).map setupBlock).flatten
        ++ bodyInstrs ++ [.mathi 0 13 13 "+" 1, .memwi 0 13 1]
        ++ ((cregs.zip sweeps).map updateBlock).flatten
        ++ [.loopnz 0 14 "LOOP_rep", .endProg])

/-- Nested-loop reading of the emitted sweep instructions: the head of the
pair list is the *innermost* loop, wrapping `inner` directly; each later
pair wraps the accumulated block further out. -/
def sweepNest : List (Nat × SweepInstrSpec) → List Instr → List Instr
  | [], inner => inner
  | p :: rest, inner => sweepNest rest (setupBlock p ++ inner ++ updateBlock p)

/-- Sweep-registration state of an `NDAveragerProgram`: the ordered sweep
list and the running experiment-point count (initialised to 1). -/
structure NDState where
  qick_sweeps : List SweepInstrSpec
  expts : Nat
  deriving DecidableEq, Repr

/-- State after `NDAveragerProgram.__init__` (before any `add_sweep`). -/
def NDState.initState : NDState := { qick_sweeps := [], expts := 1 }

/-- `NDAveragerProgram.add_sweep`: append the sweep and multiply the
running point count by its `expts`. -/
def add_sweep (st : NDState) (s : SweepInstrSpec) : NDState :=
  { qick_sweeps := st.qick_sweeps ++ [s], expts := st.expts * s.expts }

/-- Register a list of sweeps in order. -/
def addSweeps (st : NDState) (ss : List SweepInstrSpec) : NDState :=
  ss.foldl add_sweep st

/-! ## Acquisition / reduction (`acquire_round` lines 317-418,
`acquire` lines 446-515) -/

/-- One entry of the `threshold = None` reduction in `acquire_round`:
`np.sum(di_buf[i_ch][ii::rpe].reshape((reps, expts)), 0) / reps / ro.length`
evaluated at experiment point `e`.  The strided slice element `k` is raw
sample `ii + k * rpe`, and reshaping to `(reps, expts)` sends `(r, e)` to
`k = r * expts + e`. -/
def avgEntry (buf : Nat → Nat → ℚ) (reps expts rpe : Nat) (roLen : ℚ)
    (iCh ii e : Nat) : ℚ :=
  (∑ r ∈ Finset.range reps, buf iCh (ii + (r * expts + e) * rpe)) /
    (reps : ℚ) / roLen

/-- The averaged array built by the `threshold = None` branch of
`acquire_round` (for either the I or the Q raw buffer `buf`): shape
`(n_ro, len(save_experiments), expts)`, indexed channel-first as the code
fills `avg_di[i_ch][nn]`. -/
def acquireRoundAvg (buf : Nat → Nat → ℚ) (roLens : List ℚ)
    (reps expts rpe : Nat) (save_experiments : List Nat) :
    List (List (List ℚ)) :=
  (List.range roLens.length).map fun iCh =>
    save_experiments.map fun ii =>
      (List.range expts).map fun e =>
        avgEntry buf reps expts rpe (roLens.getD iCh 0) iCh ii e

/-- Spec-side definition: element `(r, e)` of the strided slice
`chanBuf[ii::rpe]` reshaped to `(reps, expts)`. -/
def sliceReshaped (chanBuf : Nat → ℚ) (ii rpe expts r e : Nat) : ℚ :=
  chanBuf (ii + (r * expts + e) * rpe)

/-- Spec-side definition: mean of `f` over the repetition axis. -/
def meanOverReps (reps : Nat) (f : Nat → ℚ) : ℚ :=
  (∑ r ∈ Finset.range reps, f r) / (reps : ℚ)

/-- The multi-round accumulation loop of `acquire`: `avg_di = None`; for
each round's averaged array, set it the first time and add elementwise
afterwards.  Arrays are modelled as `Nat → ℚ` with elementwise `+`. -/
def accumRounds (roundAvgs : List (Nat → ℚ)) : Option (Nat → ℚ) :=
  roundAvgs.foldl
    (fun acc v =>
      match acc with
      | none => some v
      | some a => some (fun i => a i + v i))
    none

/-- The `rounds > 1` branch of `acquire`: accumulate the per-round averaged
arrays, then divide by `cfg["rounds"]`. -/
def acquireMultiRound (roundAvgs : List (Nat → ℚ)) (rounds : ℚ) :
    Option (Nat → ℚ) :=
  (accumRounds roundAvgs).map (fun a i => a i / rounds)

/-! ## Single-shot classification (`get_single_shots`, lines 420-444) -/

/-- `np.heaviside(x, 0)`: 1 for positive `x`, 0 otherwise (the zero point
maps to the second argument, 0). -/
noncomputable def heaviside0 (x : ℝ) : ℝ := if 0 < x then 1 else 0

/-- One sample of one channel in `get_single_shots`:
`np.heaviside((di*cos(angle) - dq*sin(angle)) / ro.length - threshold, 0)`. -/
noncomputable def get_single_shots (di dq angle roLength threshold : ℝ) : ℝ :=
  heaviside0 ((di * Real.cos angle - dq * Real.sin angle) / roLength - threshold)

/-! ## Helper lemmas -/

theorem zip_reverse_eq {α β : Type} :
    ∀ (l1 : List α) (l2 : List β), l1.length = l2.length →
      l1.reverse.zip l2.reverse = (l1.zip l2).reverse := by
  intro l1
  induction l1 with
  | nil => intro l2 h; simp
  | cons a t ih =>
      intro l2 h
      cases l2 with
      | nil => simp at h
      | cons b t2 =>
          simp only [List.length_cons, Nat.succ.injEq] at h
          simp only [List.reverse_cons, List.zip_cons_cons]
          rw [List.zip_append (by simp [h]), ih t2 h]
          simp

theorem counterRegs_length (n : Nat) : (counterRegs n).length = n := by
  simp [counterRegs]

theorem counterRegs_getLast (n : Nat) (h : 1 ≤ n) :
    (counterRegs n).getLast? = some (n + 14) := by
  rw [counterRegs, List.getLast?_eq_getElem?]
  simp only [List.length_map, List.length_range]
  rw [List.getElem?_map, List.getElem?_range (by omega)]
  simp
  omega

theorem getD_map_range {α : Type} (f : Nat → α) (n i : Nat) (h : i < n) (d : α) :
    ((List.range n).map f).getD i d = f i := by
  rw [List.getD_eq_getElem?_getD, List.getElem?_map, List.getElem?_range h]
  rfl

theorem sweepNest_eq (ps : List (Nat × SweepInstrSpec)) (inner : List Instr) :
    sweepNest ps inner
      = (ps.reverse.map setupBlock).flatten ++ inner
          ++ (ps.map updateBlock).flatten := by
  induction ps generalizing inner with
  | nil => simp [sweepNest]
  | cons p rest ih =>
      simp only [sweepNest, ih, List.reverse_cons, List.map_append, List.map_cons,
        List.map_nil, List.flatten_append, List.flatten_cons, List.flatten_nil,
        List.append_nil, List.append_assoc]

theorem makeProgram_ok (reps : Nat) (initInstrs bodyInstrs : List Instr)
    (sweeps : List SweepInstrSpec) (h1 : 1 ≤ sweeps.length)
    (h7 : sweeps.length ≤ 7) :
    makeProgram reps initInstrs bodyInstrs sweeps
      = .ok (initInstrs
          ++ [.regwi 0 13 0, .regwi 0 14 ((reps : Int) - 1), .label "LOOP_rep"]
          ++ sweepNest ((counterRegs sweeps.length).zip sweeps)
              (bodyInstrs ++ [.mathi 0 13 13 "+" 1, .memwi 0 13 1])
          ++ [.loopnz 0 14 "LOOP_rep", .endProg]) := by
  have hlast := counterRegs_getLast sweeps.length h1
  have hlen : (counterRegs sweeps.length).length = sweeps.length :=
    counterRegs_length _
  simp only [makeProgram, hlast]
  rw [if_neg (by omega)]
  rw [sweepNest_eq, zip_reverse_eq _ _ hlen]
  simp [List.append_assoc]

theorem makeProgram_overflow (reps : Nat) (initInstrs bodyInstrs : List Instr)
    (sweeps : List SweepInstrSpec) (h8 : 8 ≤ sweeps.length) :
    makeProgram reps initInstrs bodyInstrs sweeps = .error .overflowError := by
  have hlast := counterRegs_getLast sweeps.length (by omega)
  simp only [makeProgram, hlast]
  rw [if_pos (by omega)]

/-! ## Claim theorems -/

/-- Claim C1: `make_program` emits the per-sweep reset/counter-set/label
blocks in reverse registration order and the per-sweep
update/decrement-and-branch blocks in registration order, so the emitted
program is exactly a loop nest in which the first-registered sweep is the
innermost (fastest-varying) loop: the program equals `sweepNest` applied to
the sweeps in registration order, where the head of the list wraps the
per-shot body directly and each later sweep wraps further out. -/
theorem c1_first_registered_sweep_innermost (reps : Nat)
    (initInstrs bodyInstrs : List Instr) (sweeps : List SweepInstrSpec)
    (h1 : 1 ≤ sweeps.length) (h7 : sweeps.length ≤ 7) :
    makeProgram reps initInstrs bodyInstrs sweeps
      = .ok (initInstrs
          ++ [.regwi 0 13 0, .regwi 0 14 ((reps : Int) - 1), .label "LOOP_rep"]
          ++ sweepNest ((counterRegs sweeps.length).zip sweeps)
              (bodyInstrs ++ [.mathi 0 13 13 "+" 1, .memwi 0 13 1])
          ++ [.loopnz 0 14 "LOOP_rep", .endProg]) :=
  makeProgram_ok reps initInstrs bodyInstrs sweeps h1 h7

/-- Witness for C1: a two-sweep program, fully evaluated; the
first-registered sweep (register page 1, label `LOOP_r1`) sits innermost
around the body, the second-registered one (page 2, label `LOOP_16`)
outermost. -/
theorem c1_witness :
    makeProgram 2 [] []
        [{ page := 1, addr := 3, regName := some "r1", resetVal := 10,
           reg_step := 2, expts := 5 },
         { page := 2, addr := 4, regName := none, resetVal := 20,
           reg_step := 3, expts := 3 }]
      = .ok [.regwi 0 13 0, .regwi 0 14 1, .label "LOOP_rep",
             .safe_regwi 2 4 20, .regwi 0 16 2, .label "LOOP_16",
             .safe_regwi 1 3 10, .regwi 0 15 4, .label "LOOP_r1",
             .mathi 0 13 13 "+" 1, .memwi 0 13 1,
             .mathi 1 3 3 "+" 2, .loopnz 0 15 "LOOP_r1",
             .mathi 2 4 4 "+" 3, .loopnz 0 16 "LOOP_16",
             .loopnz 0 14 "LOOP_rep", .endProg] := by
  rw [c1_first_registered_sweep_innermost 2 [] [] _ (by decide) (by decide)]
  rfl

/-- Claim C4: after registering any list of sweeps with `add_sweep`, the
program's `expts` equals the product of the sweeps' point counts (starting
from 1 for no sweeps), and is therefore the same for any registration
order. -/
theorem c4_expts_product (ss : List SweepInstrSpec) :
    (addSweeps NDState.initState ss).expts
        = (ss.map SweepInstrSpec.expts).prod
      ∧ ∀ ss', ss.Perm ss' →
          (addSweeps NDState.initState ss).expts
            = (addSweeps NDState.initState ss').expts := by
  have key : ∀ (st : NDState) (l : List SweepInstrSpec),
      (addSweeps st l).expts = st.expts * (l.map SweepInstrSpec.expts).prod := by
    intro st l
    induction l generalizing st with
    | nil => simp [addSweeps]
    | cons s rest ih =>
        have : addSweeps st (s :: rest) = addSweeps (add_sweep st s) rest := rfl
        rw [this, ih, List.map_cons, List.prod_cons, add_sweep, Nat.mul_assoc]
  constructor
  · rw [key]; simp [NDState.initState]
  · intro ss' hperm
    rw [key, key]
    rw [List.Perm.prod_eq (hperm.map SweepInstrSpec.expts)]

/-- Witness for C4: sweeps with 5 and 3 points, registered in either
order, both give `expts = 15`. -/
theorem c4_witness :
    (addSweeps NDState.initState
        [{ page := 0, addr := 1, regName := none, resetVal := 0,
           reg_step := 1, expts := 5 },
         { page := 0, addr := 2, regName := none, resetVal := 0,
           reg_step := 1, expts := 3 }]).expts = 15
  ∧ (addSweeps NDState.initState
        [{ page := 0, addr := 2, regName := none, resetVal := 0,
           reg_step := 1, expts := 3 },
         { page := 0, addr := 1, regName := none, resetVal := 0,
           reg_step := 1, expts := 5 }]).expts = 15 := by
  constructor
  · rw [(c4_expts_product _).1]; rfl
  · rw [← (c4_expts_product
        [{ page := 0, addr := 1, regName := none, resetVal := 0,
           reg_step := 1, expts := 5 },
         { page := 0, addr := 2, regName := none, resetVal := 0,
           reg_step := 1, expts := 3 }]).2 _ (by decide)]
    rw [(c4_expts_product _).1]; rfl

/-- Claim C6: `make_program` allocates one loop-counter register per
registered sweep starting at register 15, succeeds for every sweep count
`n` with `1 ≤ n ≤ 7`, and raises an overflow error for every `n ≥ 8`. -/
theorem c6_counter_register_allocation (reps : Nat)
    (initInstrs bodyInstrs : List Instr) (sweeps : List SweepInstrSpec) :
    ((counterRegs sweeps.length).length = sweeps.length
      ∧ ∀ i, i < sweeps.length → (counterRegs sweeps.length).getD i 0 = 15 + i)
  ∧ (1 ≤ sweeps.length → sweeps.length ≤ 7 →
      ∃ prog, makeProgram reps initInstrs bodyInstrs sweeps = .ok prog)
  ∧ (8 ≤ sweeps.length →
      makeProgram reps initInstrs bodyInstrs sweeps = .error .overflowError) := by
  refine ⟨⟨counterRegs_length _, ?_⟩, ?_, ?_⟩
  · intro i hi
    rw [counterRegs, getD_map_range _ _ _ hi]
    omega
  · intro h1 h7
    exact ⟨_, makeProgram_ok reps initInstrs bodyInstrs sweeps h1 h7⟩
  · intro h8
    exact makeProgram_overflow reps initInstrs bodyInstrs sweeps h8

/-- Witness for C6: with 7 one-point sweeps the program compiles; with 8 it
raises the overflow error; the counter registers for two sweeps are 15 and
16. -/
theorem c6_witness :
    (∃ prog, makeProgram 1 [] []
        (List.replicate 7
          { page := 0, addr := 1, regName := none, resetVal := 0,
            reg_step := 1, expts := 1 }) = .ok prog)
  ∧ makeProgram 1 [] []
        (List.replicate 8
          { page := 0, addr := 1, regName := none, resetVal := 0,
            reg_step := 1, expts := 1 }) = .error .overflowError
  ∧ (counterRegs 2).getD 0 0 = 15 ∧ (counterRegs 2).getD 1 0 = 15 + 1 := by
  refine ⟨?_, ?_, ?_, ?_⟩
  · exact (c6_counter_register_allocation 1 [] [] _).2.1 (by decide) (by decide)
  · exact (c6_counter_register_allocation 1 [] [] _).2.2 (by decide)
  · exact ((c6_counter_register_allocation 1 [] []
      (List.replicate 2
        { page := 0, addr := 1, regName := none, resetVal := 0,
          reg_step := 1, expts := 1 })).1.2 0 (by decide)).trans rfl
  · exact (c6_counter_register_allocation 1 [] []
      (List.replicate 2
        { page := 0, addr := 1, regName := none, resetVal := 0,
          reg_step := 1, expts := 1 })).1.2 1 (by decide)

/-- Claim C9: constructing a `QickSweep` with a single experiment point
divides by zero in the per-step increment `(stop - start) / (expts - 1)`,
so for every register conversion and every start/stop pair the construction
raises `ZeroDivisionError` instead of returning a sweep object. -/
theorem c9_single_point_sweep_div_zero (val2reg : ℚ → Int) (start stop : ℚ) :
    QickSweep.mkSweep val2reg start stop 1 = .error .zeroDivision := by
  simp [QickSweep.mkSweep, pyDiv]

/-- Claim C10: `make_program` with an empty sweep list fails with an
`IndexError` when reading `counter_regs[-1]` from the empty counter list,
for every repetition count and user initialize/body, instead of emitting a
repetition-only program. -/
theorem c10_empty_sweep_list_index_error (reps : Nat)
    (initInstrs bodyInstrs : List Instr) :
    makeProgram reps initInstrs bodyInstrs [] = .error .indexError := rfl

/-- Claim C8 (code bug): an IQ-pair generator entry that carries both
`skew_phase` and `IQ_scale` is split into two single-channel declarations,
but an entry with `ch_I`/`ch_Q` and *without* `skew_phase` makes
`declare_all_gens` raise `KeyError "skew_phase"` (Python `dict.pop` raises
`KeyError`, and the source catches only `AttributeError`), so the claimed
split does not happen for every IQ-pair entry. -/
theorem c8_iq_pair_split_keyerror :
    declare_all_gens [[("ch_I", 1), ("ch_Q", 2), ("nqz", 1)]]
        = .error (.keyError "skew_phase")
  ∧ declare_all_gens
        [[("ch_I", 1), ("ch_Q", 2), ("skew_phase", 0), ("IQ_scale", 1),
          ("nqz", 1)]]
        = .ok [{ ch := some 1, kwargs := [("nqz", 1)] },
               { ch := some 2, kwargs := [("nqz", 1)] }] := by
  constructor
  · rfl
  · rfl

theorem nextFreeAddr_props (regs : List (Nat × Nat)) (page : Nat) :
    ∀ (k addr : Nat), maxSnd regs + 1 - addr = k →
      (page, nextFreeAddr regs page addr) ∉ regs
      ∧ addr ≤ nextFreeAddr regs page addr
      ∧ ∀ b, addr ≤ b → b < nextFreeAddr regs page addr → (page, b) ∈ regs := by
  intro k
  induction k with
  | zero =>
      intro addr hk
      have hnot : (page, addr) ∉ regs := by
        intro hmem
        have hle := snd_le_maxSnd hmem
        simp only at hle
        omega
      rw [nextFreeAddr, dif_neg hnot]
      exact ⟨hnot, le_refl _, fun b hb1 hb2 => absurd hb2 (by omega)⟩
  | succ k ih =>
      intro addr hk
      by_cases hmem : (page, addr) ∈ regs
      · have hle : addr ≤ maxSnd regs := snd_le_maxSnd hmem
        have hstep : nextFreeAddr regs page addr
            = nextFreeAddr regs page (addr + 1) := by
          rw [nextFreeAddr]; exact dif_pos hmem
        obtain ⟨h1, h2, h3⟩ := ih (addr + 1) (by omega)
        rw [hstep]
        refine ⟨h1, by omega, ?_⟩
        intro b hb1 hb2
        rcases Nat.eq_or_lt_of_le hb1 with heq | hlt
        · rw [← heq]; exact hmem
        · exact h3 b (by omega) hb2
      · rw [nextFreeAddr, dif_neg hmem]
        exact ⟨hmem, le_refl _, fun b hb1 hb2 => absurd hb2 (by omega)⟩

/-- Claim C5: `new_reg` never hands out a `(page, address)` pair already in
the allocated list — on success the address is the lowest free address of
the linear scan starting at 1 and is at most 12; when every address
1..12 of the page is taken (a 13th register on a full page) it raises the
`ValueError`; and when the caller-supplied name already exists for the
channel (and an address was free) it raises a `KeyError`. -/
theorem c5_new_reg_allocation (st : APRegState) (page : Nat)
    (name : Option String) :
    (∀ st' addr, new_reg st page name = .ok (st', addr) →
        (page, addr) ∉ st.user_regs ∧ 1 ≤ addr ∧ addr ≤ 12
          ∧ ∀ a, 1 ≤ a → a < addr → (page, a) ∈ st.user_regs)
  ∧ ((∀ a, a < 13 → 1 ≤ a → (page, a) ∈ st.user_regs) →
        new_reg st page name = .error .valueError)
  ∧ (∀ nm, name = some nm → nm ∈ st.channel_reg_names →
        nextFreeAddr st.user_regs page 1 ≤ 12 →
        new_reg st page name = .error (.keyError nm)) := by
  obtain ⟨hnotmem, hge, hmin⟩ :=
    nextFreeAddr_props st.user_regs page (maxSnd st.user_regs + 1 - 1) 1 rfl
  refine ⟨?_, ?_, ?_⟩
  · intro st' addr h
    simp only [new_reg] at h
    by_cases h12 : nextFreeAddr st.user_regs page 1 > 12
    · rw [if_pos h12] at h; exact absurd h (by simp)
    · rw [if_neg h12] at h
      by_cases hnm : (name.getD ("reg_" ++ toString (nextFreeAddr st.user_regs page 1)))
          ∈ st.channel_reg_names
      · rw [if_pos hnm] at h; exact absurd h (by simp)
      · rw [if_neg hnm] at h
        have haddr : addr = nextFreeAddr st.user_regs page 1 := by
          have := congrArg (fun x => match x with
            | Except.ok (p : APRegState × Nat) => p.2
            | Except.error _ => 0) h
          simpa using this.symm
        subst haddr
        exact ⟨hnotmem, hge, by omega, fun a ha1 ha2 => hmin a ha1 ha2⟩
  · intro hall
    have h13 : nextFreeAddr st.user_regs page 1 > 12 := by
      by_contra hle
      exact hnotmem (hall _ (by omega) hge)
    simp only [new_reg]
    rw [if_pos h13]
  · intro nm hname hmem h12
    subst hname
    simp only [new_reg, Option.getD_some]
    rw [if_neg (by omega), if_pos hmem]

/-- Witness for C5: allocating on a page where only address 1 is taken
yields address 2 with the documented properties; a page holding all of
1..12 raises the `ValueError`; a duplicate name raises the `KeyError`. -/
theorem c5_witness :
    ((0, 2) ∉ [((0 : Nat), (1 : Nat))] ∧ 1 ≤ 2 ∧ 2 ≤ 12
      ∧ ∀ a, 1 ≤ a → a < 2 → ((0 : Nat), a) ∈ [((0 : Nat), (1 : Nat))])
  ∧ new_reg ⟨[(0, 1), (0, 2), (0, 3), (0, 4), (0, 5), (0, 6), (0, 7), (0, 8),
      (0, 9), (0, 10), (0, 11), (0, 12)], []⟩ 0 none = .error .valueError
  ∧ new_reg ⟨[], ["x"]⟩ 0 (some "x") = .error (.keyError "x") := by
  refine ⟨?_, ?_, ?_⟩
  · refine (c5_new_reg_allocation ⟨[(0, 1)], []⟩ 0 none).1
      ⟨[(0, 1), (0, 2)], ["reg_2"]⟩ 2 ?_
    have e1 : nextFreeAddr [((0 : Nat), (1 : Nat))] 0 1 = 2 := by
      simp [nextFreeAddr]
    simp only [new_reg, e1]
    norm_num
    rfl
  · refine (c5_new_reg_allocation _ 0 none).2.1 ?_
    intro a h13 h1
    interval_cases a <;> simp
  · refine (c5_new_reg_allocation _ 0 (some "x")).2.2 "x" rfl (by simp) ?_
    have e0 : nextFreeAddr ([] : List (Nat × Nat)) 0 1 = 1 := by
      simp [nextFreeAddr]
    show nextFreeAddr ([] : List (Nat × Nat)) 0 1 ≤ 12
    omega

/-- Claim C2 helper: `getD` through `map` at an in-range index. -/
theorem getD_map_lt {α β : Type} (l : List α) (f : α → β) (i : Nat)
    (h : i < l.length) (d : β) (d' : α) :
    (l.map f).getD i d = f (l.getD i d') := by
  rw [List.getD_eq_getElem?_getD, List.getElem?_map, List.getElem?_eq_getElem h,
      List.getD_eq_getElem?_getD, List.getElem?_eq_getElem h]
  rfl

/-- Claim C2: with `threshold = None` the averaged array built by
`acquire_round` has shape `(number of readout channels,
len(save_experiments), expts)` and each entry is the mean over the
repetition axis of the strided slice (taken at the saved measurement index
with stride `readouts_per_experiment`, reshaped to `(reps, expts)`),
divided by the channel's integration length.  The same reduction is applied
to the I and the Q buffer, so the statement quantifies over the raw
buffer. -/
theorem c2_acquire_round_mean (buf : Nat → Nat → ℚ) (roLens : List ℚ)
    (reps expts rpe : Nat) (save : List Nat) :
    (acquireRoundAvg buf roLens reps expts rpe save).length = roLens.length
  ∧ (∀ row ∈ acquireRoundAvg buf roLens reps expts rpe save,
        row.length = save.length ∧ ∀ col ∈ row, col.length = expts)
  ∧ ∀ iCh nn e, iCh < roLens.length → nn < save.length → e < expts →
      (((acquireRoundAvg buf roLens reps expts rpe save).getD iCh []).getD
          nn []).getD e 0
        = meanOverReps reps
            (fun r => sliceReshaped (buf iCh) (save.getD nn 0) rpe expts r e)
          / roLens.getD iCh 0 := by
  refine ⟨by simp [acquireRoundAvg], ?_, ?_⟩
  · intro row hrow
    simp only [acquireRoundAvg, List.mem_map] at hrow
    obtain ⟨iCh, _, hrow⟩ := hrow
    constructor
    · rw [← hrow]; simp
    · intro col hcol
      rw [← hrow] at hcol
      simp only [List.mem_map] at hcol
      obtain ⟨ii, _, hcol⟩ := hcol
      rw [← hcol]; simp
  · intro iCh nn e hiCh hnn he
    rw [acquireRoundAvg, getD_map_range _ _ _ hiCh,
        getD_map_lt _ _ _ hnn _ 0, getD_map_range _ _ _ he]
    simp [avgEntry, meanOverReps, sliceReshaped]

/-- Witness for C2: raw samples `buf ch k = k` with 1 readout channel of
integration length 2, `reps = 2`, `expts = 2`, one readout per experiment,
saving measurement 0: the entry at channel 0, saved index 0, experiment
point 0 is `((0 + 2) / 2) / 2 = 1 / 2`. -/
theorem c2_witness :
    (((acquireRoundAvg (fun _ k => (k : ℚ)) [2] 2 2 1 [0]).getD 0 []).getD
        0 []).getD 0 0 = 1 / 2 := by
  rw [(c2_acquire_round_mean (fun _ k => (k : ℚ)) [2] 2 2 1 [0]).2.2 0 0 0
    (by decide) (by decide) (by decide)]
  norm_num [meanOverReps, sliceReshaped, Finset.sum_range_succ]

/-- Claim C3 helper: folding the round accumulator from an already-seen
first round sums the remaining rounds elementwise. -/
theorem accumRounds_from (a : Nat → ℚ) (rest : List (Nat → ℚ)) :
    rest.foldl
        (fun acc v =>
          match acc with
          | none => some v
          | some x => some (fun i => x i + v i))
        (some a)
      = some (fun i => a i + (rest.map (fun v => v i)).sum) := by
  induction rest generalizing a with
  | nil => simp
  | cons v t ih =>
      simp only [List.foldl_cons]
      rw [ih]
      simp only [List.map_cons, List.sum_cons]
      congr 1
      funext i
      ring

/-- Claim C3: for every rounds count `R > 1`, `acquire` returns the
elementwise sum of the `R` per-round averaged arrays divided by `R`; in
particular for three rounds with averages `a`, `b`, `c` the result is
`(a + b + c) / 3`. -/
theorem c3_rounds_running_average (roundAvgs : List (Nat → ℚ))
    (h : 2 ≤ roundAvgs.length) :
    acquireMultiRound roundAvgs (roundAvgs.length : ℚ)
        = some (fun i =>
            (roundAvgs.map (fun v => v i)).sum / (roundAvgs.length : ℚ))
  ∧ ∀ a b c : Nat → ℚ,
      acquireMultiRound [a, b, c] 3
        = some (fun i => (a i + b i + c i) / 3) := by
  constructor
  · match roundAvgs, h with
    | v :: t, _ =>
        simp only [acquireMultiRound, accumRounds, List.foldl_cons]
        rw [accumRounds_from]
        rfl
  · intro a b c
    rfl

/-- Witness for C3: constant rounds `1`, `2`, `3` average to `2`. -/
theorem c3_witness :
    acquireMultiRound [fun _ => (1 : ℚ), fun _ => 2, fun _ => 3]
        (([fun _ => (1 : ℚ), fun _ => 2, fun _ => 3] :
            List (Nat → ℚ)).length : ℚ)
      = some (fun _ => (2 : ℚ)) := by
  rw [(c3_rounds_running_average [fun _ => (1 : ℚ), fun _ => 2, fun _ => 3]
    (by simp)).1]
  congr 1
  funext i
  norm_num

/-- Claim C7: `get_single_shots` maps each sample through
`heaviside((di*cos(angle) - dq*sin(angle)) / length - threshold, 0)`: a
sample whose rotated, length-normalized value equals the threshold exactly
maps to 0, a value above the threshold maps to 1, and with angle 0 the
rotation leaves the I data unchanged. -/
theorem c7_single_shot_classification (di dq angle roLength threshold : ℝ) :
    get_single_shots di dq angle roLength threshold
        = heaviside0
            ((di * Real.cos angle - dq * Real.sin angle) / roLength - threshold)
  ∧ ((di * Real.cos angle - dq * Real.sin angle) / roLength = threshold →
        get_single_shots di dq angle roLength threshold = 0)
  ∧ (threshold < (di * Real.cos angle - dq * Real.sin angle) / roLength →
        get_single_shots di dq angle roLength threshold = 1)
  ∧ (angle = 0 →
        get_single_shots di dq angle roLength threshold
          = heaviside0 (di / roLength - threshold)) := by
  refine ⟨rfl, ?_, ?_, ?_⟩
  · intro h
    rw [get_single_shots, h, sub_self, heaviside0, if_neg (lt_irrefl 0)]
  · intro h
    rw [get_single_shots, heaviside0, if_pos (by linarith)]
  · intro h
    rw [h, get_single_shots]
    simp [Real.cos_zero, Real.sin_zero]

/-- Witness for C7: with angle 0 and integration length 2, the sample
`(4, 5)` lands exactly on threshold 2 and classifies to 0, while `(6, 5)`
lands above it and classifies to 1. -/
theorem c7_witness :
    get_single_shots 4 5 0 2 2 = 0 ∧ get_single_shots 6 5 0 2 2 = 1 := by
  constructor
  · refine (c7_single_shot_classification 4 5 0 2 2).2.1 ?_
    simp [Real.cos_zero, Real.sin_zero]
    norm_num
  · refine (c7_single_shot_classification 6 5 0 2 2).2.2.1 ?_
    simp [Real.cos_zero, Real.sin_zero]
    norm_num

end AveragerProgram
